import Mathlib

/-!
# Verification of the market-making simulator engine

Shallow embedding of the execution and accounting engine of the simulator
(`simulation.py`, with the order-type data model of `maker.py`).

Conventions of the embedding:
* Python floats (prices, cash) are modelled as `ℚ`; volumes, holdings and
  timestamps as `ℤ`; `math.floor` on a float quotient is `Int.floor` on `ℚ`.
* The engine state touched by the execution routines is passed explicitly:
  `money : ℚ`, `holding : ℤ`, and the resting book `List Order`.
* Python's `for order in lst: ... lst.remove(order) ...` is modelled with the
  CPython iterator semantics: iteration by a numeric index that increments
  after every loop body, while `remove` deletes the first structurally equal
  element of the list.  The loop is expressed with a fuel argument equal to
  the initial list length, which bounds the number of iterations.
-/

namespace MMGame

/-- Side tag of a resting limit order (the Python code uses the strings
`"buy"` and `"sell"` in slot 2 of the order list). -/
inductive Side where
  | buy : Side
  | sell : Side
deriving DecidableEq, Repr

/-- A resting limit order, `[price, volume, buy/sell, from_time, to_time]`
in `simulation.py` (`addLimitOrder`). -/
structure Order where
  price : ℚ
  volume : ℤ
  side : Side
  from_time : ℤ
  to_time : ℤ
deriving DecidableEq, Repr

/-- Tag field `type` of the `OrderType` dataclass of `maker.py`: the tag `"limit"`/`"market"`. -/
inductive OrderKind where
  | limit : OrderKind
  | market : OrderKind
deriving DecidableEq, Repr

/-- The `OrderType` dataclass of `maker.py` (`type`, `from_time`, `to_time`). -/
structure OrderType where
  kind : OrderKind
  from_time : ℤ
  to_time : ℤ
deriving DecidableEq, Repr

/-- Constant `INIT_BUY` of `simulation.py`. -/
def INIT_BUY : ℚ := 100.5

/-- Constant `INIT_SELL` of `simulation.py`. -/
def INIT_SELL : ℚ := 99.5

/-- Constant `START_MONEY` of `simulation.py`. -/
def START_MONEY : ℚ := 10000

/-- Python `list.remove`: delete the first element equal to `o`. -/
def eraseFirst (q : List Order) (o : Order) : List Order :=
  match q with
  | [] => []
  | x :: xs => if x = o then xs else x :: eraseFirst xs o

/-- The input-sanitisation performed inline by `Simulation.checkAndUpdate`
(`simulation.py` lines 48-68) on the tuple returned by the strategy, given the
current holding.  Returns the clamped `(buy, vb, sell, vs)`. -/
def sanitize (buy : ℚ) (vb : ℤ) (sell : ℚ) (vs : ℤ) (holding : ℤ) :
    ℚ × ℤ × ℚ × ℤ :=
  let vb1 := if buy < 0 then 0 else vb
  let vs1 := if sell < 0 then 0 else vs
  let vb2 := if vb1 < 0 then 0 else vb1
  let vs2 := if vs1 < 0 then 0 else vs1
  let vs3 := if holding < vs2 then holding else vs2
  (buy, vb2, sell, vs3)

/-- The buy volume actually filled by `Simulation.executeOrders`: the
requested volume capped at `floor(money / market_sell)`
(`simulation.py` lines 156-158). -/
def marketFilledBuy (money market_sell : ℚ) (volume_buy : ℤ) : ℤ :=
  if ⌊money / market_sell⌋ < volume_buy then ⌊money / market_sell⌋ else volume_buy

/-- The sell volume actually filled by `Simulation.executeOrders`: the
requested volume capped at the holding at that point of the routine
(`simulation.py` lines 166-167). -/
def marketFilledSell (holding volume_sell : ℤ) : ℤ :=
  if holding < volume_sell then holding else volume_sell

/-- Method `Simulation.executeOrders` (`simulation.py` lines 145-176): execute a
market buy then a market sell against the current quote, mutating
`(money, holding)`.  Returns `(money', holding', return_value)` where
`return_value` is the float the Python method returns
(`0.0 - market_sell*volume_buy + market_buy*volume_sell`).
Note the source buys and credits the sell both at `market_sell`
(lines 163 and 173), while the returned value prices the sell leg at
`market_buy`. -/
def executeOrders (market_buy market_sell : ℚ) (volume_buy volume_sell : ℤ)
    (money : ℚ) (holding : ℤ) : ℚ × ℤ × ℚ :=
  let vb := marketFilledBuy money market_sell volume_buy
  let money1 := money - market_sell * vb
  let holding1 := holding + vb
  let vs := marketFilledSell holding1 volume_sell
  let money2 := money1 + market_sell * vs
  let holding2 := holding1 - vs
  (money2, holding2, 0 - market_sell * vb + market_buy * vs)

/-- One loop body of `Simulation.executeLimitOrders` (`simulation.py`
lines 98-136), visiting order `o` of queue `q`.  Parameters follow the Python
signature: `ms` = `market_sell`, `mb` = `market_buy`, `ts` = `timestamp`.
Returns the updated `(queue, money, holding, profit)`. -/
def limitStep (ms mb : ℚ) (ts : ℤ) (q : List Order) (o : Order)
    (money : ℚ) (holding : ℤ) (profit : ℚ) : List Order × ℚ × ℤ × ℚ :=
  if o.to_time < ts then
    -- `timestamp > to_time`: expired, removed unconditionally, `continue`
    (eraseFirst q o, money, holding, profit)
  else if ts < o.from_time then
    -- not yet active: skipped
    (q, money, holding, profit)
  else
    match o.side with
    | Side.sell =>
      -- `price >= market_buy and self.holding >= 0`
      if mb ≤ o.price ∧ 0 ≤ holding then
        let vol := if holding < o.volume then holding else o.volume
        (eraseFirst q o, money + mb * vol, holding - vol, profit + o.price * vol)
      else (q, money, holding, profit)
    | Side.buy =>
      -- `price <= market_sell and self.money >= 0`
      if o.price ≤ ms ∧ 0 ≤ money then
        let maxv := ⌊money / ms⌋
        let vol := if maxv < o.volume then maxv else o.volume
        (eraseFirst q o, money - ms * vol, holding + vol, profit + (-o.price) * vol)
      else (q, money, holding, profit)

/-- The iteration of `Simulation.executeLimitOrders`, with the CPython
list-iterator semantics: the iterator keeps an index `i` that increments after
every body, even when the body removed an element at or before position `i`
(in which case the element that slid into the next slot is skipped). `fuel`
bounds the number of iterations; `initial queue length` is always enough
because the index grows by one per iteration and the queue never grows. -/
def executeLimitOrdersAux (ms mb : ℚ) (ts : ℤ) :
    ℕ → ℕ → List Order → ℚ → ℤ → ℚ → List Order × ℚ × ℤ × ℚ
  | 0, _, q, money, holding, profit => (q, money, holding, profit)
  | fuel + 1, i, q, money, holding, profit =>
    if h : i < q.length then
      let r := limitStep ms mb ts q (q.get ⟨i, h⟩) money holding profit
      executeLimitOrdersAux ms mb ts fuel (i + 1) r.1 r.2.1 r.2.2.1 r.2.2.2
    else (q, money, holding, profit)

/-- Method `Simulation.executeLimitOrders` (`simulation.py` lines 85-137): one sweep
of the resting book at timestamp `ts` against the quote
(`ms` = `market_sell`, `mb` = `market_buy`).  Returns
`(queue', money', holding', profit)` where `profit` is the float the Python
method returns. -/
def executeLimitOrders (ms mb : ℚ) (ts : ℤ) (q : List Order)
    (money : ℚ) (holding : ℤ) : List Order × ℚ × ℤ × ℚ :=
  executeLimitOrdersAux ms mb ts q.length 0 q money holding 0

/-- Method `Simulation.addLimitOrder` (`simulation.py` lines 140-143). -/
def addLimitOrder (q : List Order) (price : ℚ) (volume : ℤ) (side : Side)
    (from_time to_time : ℤ) : List Order :=
  q ++ [⟨price, volume, side, from_time, to_time⟩]

/-- The per-run state of `Simulation` that the engine mutates
(`simulation.py` `__init__`, lines 30-40). -/
structure SimState where
  money : ℚ
  holding : ℤ
  profit : List ℚ
  mmBuy : List ℚ
  mmSell : List ℚ
  buy : List ℚ
  sell : List ℚ
  buyVolume : List ℤ
  sellVolume : List ℤ
  limit_order_queue : List Order
deriving DecidableEq, Repr

/-- The fresh state built by `Simulation.__init__`. -/
def initState : SimState :=
  { money := START_MONEY
    holding := 0
    profit := []
    mmBuy := [INIT_BUY]
    mmSell := [INIT_SELL]
    buy := []
    sell := []
    buyVolume := []
    sellVolume := []
    limit_order_queue := [] }

/-- Method `Simulation.reset` (`simulation.py` lines 70-83).  The method reassigns
every history, the holding and the book, but contains no assignment to
`self.money`, which therefore keeps its pre-reset value. -/
def reset (s : SimState) : SimState :=
  { money := s.money
    holding := 0
    profit := []
    mmBuy := [INIT_BUY]
    mmSell := [INIT_SELL]
    buy := []
    sell := []
    buyVolume := []
    sellVolume := []
    limit_order_queue := [] }

/-- One interval body of `Simulation.run` (`simulation.py` lines 200-227)
from the point where the new market quote `(mmBuy, mmSell)` has been produced
(by `MarketData.getNextPrices`, with the random perturbation in the market
case): limit proposals are inserted into the book, a market proposal is
executed by `executeOrders`, and then the sweep `executeLimitOrders` runs;
the interval profit is the sum of the two contributions.  Arguments
`mb, vb, mS, vs` are the sanitised strategy outputs.  Returns
`(queue', money', holding', interval_profit)`. -/
def runInterval (ot : OrderType) (mmBuy mmSell : ℚ) (mb : ℚ) (vb : ℤ)
    (mS : ℚ) (vs : ℤ) (t : ℤ) (q : List Order) (money : ℚ) (holding : ℤ) :
    List Order × ℚ × ℤ × ℚ :=
  match ot.kind with
  | OrderKind.limit =>
    let q1 := if 0 < vb then addLimitOrder q mb vb Side.buy ot.from_time ot.to_time else q
    let q2 := if 0 < vs then addLimitOrder q1 mS vs Side.sell ot.from_time ot.to_time else q1
    let r := executeLimitOrders mmSell mmBuy t q2 money holding
    (r.1, r.2.1, r.2.2.1, r.2.2.2)
  | OrderKind.market =>
    let e := executeOrders mmBuy mmSell vb vs money holding
    let r := executeLimitOrders mmSell mmBuy t q e.1 e.2.1
    (r.1, r.2.1, r.2.2.1, e.2.2 + r.2.2.2)

/-- Number of positional parameters (beyond `self`) declared by the strategy
interface `MarketMaker.update` (`maker.py` line 45), all of them required:
`prev_bid_price, prev_ask_price, holding, money, timestamp`. -/
def update_param_count : ℕ := 5

/-- The positional argument list that `Simulation.checkAndUpdate` passes to
`self.market_maker.update` (`simulation.py` line 47):
`(prevBuy, prevSell, timestamp)`. -/
def update_call_args (prevBuy prevSell : ℚ) (timestamp : ℤ) : List ℚ :=
  [prevBuy, prevSell, (timestamp : ℚ)]

/-- Python positional-argument binding for a function whose parameters are all
required and without defaults: the call binds iff the argument count equals
the parameter count, otherwise a `TypeError` is raised (modelled as `none`). -/
def bindPositional (paramCount : ℕ) (args : List ℚ) : Option (List ℚ) :=
  if args.length = paramCount then some args else none

/-! ## Helper lemmas -/

/-- Removing an element from a queue introduces no new elements. -/
theorem mem_of_mem_eraseFirst {q : List Order} {o x : Order}
    (hx : x ∈ eraseFirst q o) : x ∈ q := by
  induction q with
  | nil => simp [eraseFirst] at hx
  | cons a as ih =>
    by_cases h : a = o
    · simp only [eraseFirst, if_pos h] at hx
      exact List.mem_cons_of_mem _ hx
    · simp only [eraseFirst, if_neg h, List.mem_cons] at hx
      rcases hx with h1 | h1
      · exact h1 ▸ List.mem_cons_self _ _
      · exact List.mem_cons_of_mem _ (ih h1)

/-- Spending at most `ms * ⌊money / ms⌋` cannot drive `money` negative. -/
theorem sub_mul_cap_nonneg {money ms : ℚ} {v : ℤ} (hms : 0 < ms)
    (hv : v ≤ ⌊money / ms⌋) : 0 ≤ money - ms * v := by
  have h1 : (v : ℚ) ≤ money / ms :=
    le_trans (by exact_mod_cast hv) (Int.floor_le _)
  have h2 : (v : ℚ) * ms ≤ money := (le_div_iff₀ hms).mp h1
  have h3 : ms * (v : ℚ) = (v : ℚ) * ms := mul_comm _ _
  linarith

/-- The affordable-volume cap is non-negative when cash and price are. -/
theorem floor_div_nonneg {money ms : ℚ} (hms : 0 < ms) (hm : 0 ≤ money) :
    0 ≤ ⌊money / ms⌋ :=
  Int.floor_nonneg.mpr (div_nonneg hm hms.le)

/-- Market-order execution keeps cash and holding non-negative. -/
theorem executeOrders_money_holding_nonneg (mb ms : ℚ) (vb vs : ℤ)
    (money : ℚ) (holding : ℤ) (hms : 0 < ms) (hm : 0 ≤ money)
    (hh : 0 ≤ holding) (hvb : 0 ≤ vb) (hvs : 0 ≤ vs) :
    0 ≤ (executeOrders mb ms vb vs money holding).1 ∧
    0 ≤ (executeOrders mb ms vb vs money holding).2.1 := by
  have hf := floor_div_nonneg hms hm
  have hfb0 : 0 ≤ marketFilledBuy money ms vb := by
    unfold marketFilledBuy; split <;> omega
  have hfble : marketFilledBuy money ms vb ≤ ⌊money / ms⌋ := by
    unfold marketFilledBuy; split <;> omega
  have hm1 : 0 ≤ money - ms * marketFilledBuy money ms vb :=
    sub_mul_cap_nonneg hms hfble
  have hfs0 : 0 ≤ marketFilledSell (holding + marketFilledBuy money ms vb) vs := by
    unfold marketFilledSell; split <;> omega
  have hfsle : marketFilledSell (holding + marketFilledBuy money ms vb) vs ≤
      holding + marketFilledBuy money ms vb := by
    unfold marketFilledSell; split <;> omega
  constructor
  · show 0 ≤ money - ms * marketFilledBuy money ms vb +
        ms * marketFilledSell (holding + marketFilledBuy money ms vb) vs
    have hsell : (0 : ℚ) ≤
        ms * (marketFilledSell (holding + marketFilledBuy money ms vb) vs : ℤ) :=
      mul_nonneg hms.le (by exact_mod_cast hfs0)
    linarith
  · show 0 ≤ holding + marketFilledBuy money ms vb -
        marketFilledSell (holding + marketFilledBuy money ms vb) vs
    omega

/-- One sweep body preserves non-negative cash/holding and non-negative
volumes in the book. -/
theorem limitStep_inv (ms mb : ℚ) (ts : ℤ) (q : List Order) (o : Order)
    (money : ℚ) (holding : ℤ) (profit : ℚ) (hms : 0 < ms) (hmb : 0 < mb)
    (hm : 0 ≤ money) (hh : 0 ≤ holding) (hq : ∀ x ∈ q, 0 ≤ x.volume)
    (ho : 0 ≤ o.volume) :
    (∀ x ∈ (limitStep ms mb ts q o money holding profit).1, 0 ≤ x.volume) ∧
    0 ≤ (limitStep ms mb ts q o money holding profit).2.1 ∧
    0 ≤ (limitStep ms mb ts q o money holding profit).2.2.1 := by
  have herase : ∀ x ∈ eraseFirst q o, 0 ≤ x.volume :=
    fun x hx => hq x (mem_of_mem_eraseFirst hx)
  have hf := floor_div_nonneg hms hm
  unfold limitStep
  split
  · exact ⟨herase, hm, hh⟩
  · split
    · exact ⟨hq, hm, hh⟩
    · split
      · -- sell side
        split
        · refine ⟨herase, ?_, ?_⟩
          · have hvol : (0 : ℤ) ≤ (if holding < o.volume then holding else o.volume) := by
              split <;> omega
            have : (0 : ℚ) ≤
                mb * ((if holding < o.volume then holding else o.volume : ℤ) : ℚ) :=
              mul_nonneg hmb.le (by exact_mod_cast hvol)
            dsimp only
            linarith
          · dsimp only
            split <;> omega
        · exact ⟨hq, hm, hh⟩
      · -- buy side
        split
        · have hvle : (if ⌊money / ms⌋ < o.volume then ⌊money / ms⌋ else o.volume) ≤
              ⌊money / ms⌋ := by split <;> omega
          refine ⟨herase, ?_, ?_⟩
          · dsimp only
            exact sub_mul_cap_nonneg hms hvle
          · dsimp only
            split <;> omega
        · exact ⟨hq, hm, hh⟩

/-- The sweep loop preserves non-negative cash and holding. -/
theorem executeLimitOrdersAux_inv (ms mb : ℚ) (ts : ℤ) (hms : 0 < ms)
    (hmb : 0 < mb) :
    ∀ (fuel i : ℕ) (q : List Order) (money : ℚ) (holding : ℤ) (profit : ℚ),
      0 ≤ money → 0 ≤ holding → (∀ x ∈ q, 0 ≤ x.volume) →
      0 ≤ (executeLimitOrdersAux ms mb ts fuel i q money holding profit).2.1 ∧
      0 ≤ (executeLimitOrdersAux ms mb ts fuel i q money holding profit).2.2.1 := by
  intro fuel
  induction fuel with
  | zero => intro i q money holding profit hm hh _; exact ⟨hm, hh⟩
  | succ n ih =>
    intro i q money holding profit hm hh hq
    by_cases h : i < q.length
    · have hmem : q.get ⟨i, h⟩ ∈ q := List.get_mem q i h
      have hstep := limitStep_inv ms mb ts q (q.get ⟨i, h⟩) money holding profit
        hms hmb hm hh hq (hq _ hmem)
      have hnext := ih (i + 1)
        (limitStep ms mb ts q (q.get ⟨i, h⟩) money holding profit).1
        (limitStep ms mb ts q (q.get ⟨i, h⟩) money holding profit).2.1
        (limitStep ms mb ts q (q.get ⟨i, h⟩) money holding profit).2.2.1
        (limitStep ms mb ts q (q.get ⟨i, h⟩) money holding profit).2.2.2
        hstep.2.1 hstep.2.2 hstep.1
      simpa only [executeLimitOrdersAux, dif_pos h] using hnext
    · simp only [executeLimitOrdersAux, dif_neg h]
      exact ⟨hm, hh⟩

/-! ## Claims -/

/-- **C1** (refuted at a concrete input): with market bid 101, market ask 99,
cash 1000, holding 5, requested buy volume 0 and sell volume 5, the executor
leaves cash at 1495 = 1000 + 99*5 — the sell leg is credited at the *ask*
(`market_sell`, `simulation.py` line 173), not at the bid as the claim states
(which would give 1505) — while the returned value 505 = 101*5 prices the same
leg at the bid, so the return value differs from the actual cash delta 495. -/
theorem executeOrders_sell_leg_priced_at_ask :
    executeOrders 101 99 0 5 1000 5 = (1495, 0, 505) ∧
    (executeOrders 101 99 0 5 1000 5).1 - 1000 ≠
      (executeOrders 101 99 0 5 1000 5).2.2 := by
  constructor
  · norm_num [executeOrders, marketFilledBuy, marketFilledSell]
  · norm_num [executeOrders, marketFilledBuy, marketFilledSell]

/-- **C2** (refuted at concrete inputs): an active resting sell order with
limit price 100, market bid 101, holding 5 does *not* fill (the claim says it
must, since 100 ≤ 101 and 5 ≥ 0), while an active sell order with limit price
103 > bid 101 *does* fill: the code condition (`simulation.py` line 113) is
`price >= market_buy`, the reverse of the claimed `price <= market_bid`. -/
theorem limit_sell_fill_condition_reversed :
    executeLimitOrders 102 101 3 [⟨100, 4, Side.sell, 0, 10⟩] 0 5 =
      ([⟨100, 4, Side.sell, 0, 10⟩], 0, 5, 0) ∧
    executeLimitOrders 102 101 3 [⟨103, 4, Side.sell, 0, 10⟩] 0 5 =
      ([], 404, 1, 412) := by
  refine ⟨rfl, ?_⟩
  norm_num [executeLimitOrders, executeLimitOrdersAux, limitStep, eraseFirst]

/-- **C3** (refuted at concrete inputs): an active resting buy order with
limit price 100, market ask 99, cash 1000 does *not* fill (the claim says it
must, since 100 ≥ 99 and 1000 ≥ 0), while an active buy order with limit
price 98 < ask 99 *does* fill: the code condition (`simulation.py` line 125)
is `price <= market_sell`, the reverse of the claimed `price >= market_ask`. -/
theorem limit_buy_fill_condition_reversed :
    executeLimitOrders 99 98 3 [⟨100, 4, Side.buy, 0, 10⟩] 1000 0 =
      ([⟨100, 4, Side.buy, 0, 10⟩], 1000, 0, 0) ∧
    executeLimitOrders 99 98 3 [⟨98, 4, Side.buy, 0, 10⟩] 1000 0 =
      ([], 604, 4, -392) := by
  refine ⟨rfl, ?_⟩
  norm_num [executeLimitOrders, executeLimitOrdersAux, limitStep, eraseFirst]

/-- **C4** (refuted at a concrete input): sweeping at `current_time = 6` a
book holding two expired orders (both with `to_time = 5`) removes only the
first; removing it while iterating the same list makes the iterator skip the
second order, which survives the sweep even though its `to_time = 5 < 6`. -/
theorem expired_order_survives_sweep :
    executeLimitOrders 99 101 6
        [⟨1, 1, Side.sell, 0, 5⟩, ⟨2, 1, Side.sell, 0, 5⟩] 1000 5 =
      ([⟨2, 1, Side.sell, 0, 5⟩], 1000, 5, 0) ∧
    (⟨2, 1, Side.sell, 0, 5⟩ : Order).to_time < 6 := by
  exact ⟨rfl, by decide⟩

/-- **C5** (refuted at a concrete input): `Simulation.reset` re-seeds every
history, empties the book and zeroes the holding, but contains no assignment
to `self.money`: resetting a state whose cash is 50 leaves cash at 50, not at
the configured initial balance `START_MONEY = 10000`. -/
theorem reset_does_not_restore_cash :
    (reset { initState with money := 50, holding := 3, limit_order_queue := [⟨1, 1, Side.sell, 0, 5⟩] }).money = 50 ∧
    (50 : ℚ) ≠ START_MONEY ∧
    (reset { initState with money := 50, holding := 3, limit_order_queue := [⟨1, 1, Side.sell, 0, 5⟩] }).holding = 0 ∧
    (reset { initState with money := 50, holding := 3, limit_order_queue := [⟨1, 1, Side.sell, 0, 5⟩] }).profit = [] ∧
    (reset { initState with money := 50, holding := 3, limit_order_queue := [⟨1, 1, Side.sell, 0, 5⟩] }).limit_order_queue = [] ∧
    (reset { initState with money := 50, holding := 3, limit_order_queue := [⟨1, 1, Side.sell, 0, 5⟩] }).mmBuy = [INIT_BUY] ∧
    (reset { initState with money := 50, holding := 3, limit_order_queue := [⟨1, 1, Side.sell, 0, 5⟩] }).mmSell = [INIT_SELL] := by
  refine ⟨rfl, by norm_num [START_MONEY], rfl, rfl, rfl, rfl, rfl⟩

/-- **C6** (refuted): the loop's call site passes exactly three positional
arguments `(prevBuy, prevSell, timestamp)` to `MarketMaker.update`
(`simulation.py` line 47), while the declared strategy interface takes five
required parameters (`maker.py` line 45); Python positional binding therefore
fails (a `TypeError`), so the strategy is never invoked with the five
arguments the claim describes. -/
theorem update_called_with_three_args (prevBuy prevSell : ℚ) (timestamp : ℤ) :
    bindPositional update_param_count
      (update_call_args prevBuy prevSell timestamp) = none := rfl

/-- **C7**: starting from non-negative cash and holding, with positive market
prices, non-negative requested market volumes and a book of non-negative
volumes, one market-order execution and one limit-order sweep each leave both
cash and holding non-negative. -/
theorem engine_preserves_nonneg (mb ms : ℚ) (ts vb vs : ℤ) (q : List Order)
    (money : ℚ) (holding : ℤ) (hmb : 0 < mb) (hms : 0 < ms) (hm : 0 ≤ money)
    (hh : 0 ≤ holding) (hvb : 0 ≤ vb) (hvs : 0 ≤ vs)
    (hq : ∀ x ∈ q, 0 ≤ x.volume) :
    (0 ≤ (executeOrders mb ms vb vs money holding).1 ∧
     0 ≤ (executeOrders mb ms vb vs money holding).2.1) ∧
    (0 ≤ (executeLimitOrders ms mb ts q money holding).2.1 ∧
     0 ≤ (executeLimitOrders ms mb ts q money holding).2.2.1) :=
  ⟨executeOrders_money_holding_nonneg mb ms vb vs money holding hms hm hh hvb hvs,
   executeLimitOrdersAux_inv ms mb ts hms hmb q.length 0 q money holding 0 hm hh hq⟩

/-- Witness for `engine_preserves_nonneg` at bid 2, ask 1, time 0, requested
buy 1000000, requested sell 3, a one-order book, cash 5 and holding 2. -/
theorem engine_preserves_nonneg_witness :
    (0 ≤ (executeOrders 2 1 1000000 3 5 2).1 ∧
     0 ≤ (executeOrders 2 1 1000000 3 5 2).2.1) ∧
    (0 ≤ (executeLimitOrders 1 2 0 [⟨1, 1, Side.sell, 0, 10⟩] 5 2).2.1 ∧
     0 ≤ (executeLimitOrders 1 2 0 [⟨1, 1, Side.sell, 0, 10⟩] 5 2).2.2.1) :=
  engine_preserves_nonneg 2 1 0 1000000 3 [⟨1, 1, Side.sell, 0, 10⟩] 5 2
    (by norm_num) (by norm_num) (by norm_num) (by norm_num) (by norm_num)
    (by norm_num) (by decide)

/-- **C8**: the sanitisation of `checkAndUpdate` is idempotent — re-applying
it to its own output, with the same holding, returns that output unchanged. -/
theorem sanitize_idempotent (buy : ℚ) (vb : ℤ) (sell : ℚ) (vs holding : ℤ) :
    sanitize (sanitize buy vb sell vs holding).1
      (sanitize buy vb sell vs holding).2.1
      (sanitize buy vb sell vs holding).2.2.1
      (sanitize buy vb sell vs holding).2.2.2 holding =
    sanitize buy vb sell vs holding := by
  simp only [sanitize]
  split_ifs <;> simp only [Prod.mk.injEq]

/-- **C9**: in an interval whose (sanitised) proposal carries a market order
type, the interval body equals the market-order execution followed by the
limit sweep: the sweep consumes the cash and holding produced by
`executeOrders`, both routines receive the *same* new market quote
`(mmBuy, mmSell)`, the book entering the sweep is untouched by the market
path, and the interval profit is the market cashflow plus the sweep
cashflow. -/
theorem runInterval_market_before_sweep (ft tt : ℤ) (mmBuy mmSell mb mS : ℚ)
    (vb vs : ℤ) (t : ℤ) (q : List Order) (money : ℚ) (holding : ℤ) :
    runInterval ⟨OrderKind.market, ft, tt⟩ mmBuy mmSell mb vb mS vs t q
        money holding =
      ((executeLimitOrders mmSell mmBuy t q
          (executeOrders mmBuy mmSell vb vs money holding).1
          (executeOrders mmBuy mmSell vb vs money holding).2.1).1,
       (executeLimitOrders mmSell mmBuy t q
          (executeOrders mmBuy mmSell vb vs money holding).1
          (executeOrders mmBuy mmSell vb vs money holding).2.1).2.1,
       (executeLimitOrders mmSell mmBuy t q
          (executeOrders mmBuy mmSell vb vs money holding).1
          (executeOrders mmBuy mmSell vb vs money holding).2.1).2.2.1,
       (executeOrders mmBuy mmSell vb vs money holding).2.2 +
         (executeLimitOrders mmSell mmBuy t q
           (executeOrders mmBuy mmSell vb vs money holding).1
           (executeOrders mmBuy mmSell vb vs money holding).2.1).2.2.2) := rfl

/-- **C10**: inside one market-order execution the buy leg settles first and
the sell cap is computed against the holding *after* the buy: the filled sell
volume is `min vs (holding + filled_buy)`, and the final holding is
`holding + filled_buy - min vs (holding + filled_buy)`. -/
theorem market_sell_settles_after_buy (mb ms : ℚ) (vb vs : ℤ) (money : ℚ)
    (holding : ℤ) (hm : 0 ≤ money) (hh : 0 ≤ holding) (hvb : 0 ≤ vb)
    (hvs : 0 ≤ vs) (hmb : 0 < mb) (hms : 0 < ms) :
    marketFilledSell (holding + marketFilledBuy money ms vb) vs =
      min vs (holding + marketFilledBuy money ms vb) ∧
    (executeOrders mb ms vb vs money holding).2.1 =
      holding + marketFilledBuy money ms vb -
        min vs (holding + marketFilledBuy money ms vb) := by
  have h1 : marketFilledSell (holding + marketFilledBuy money ms vb) vs =
      min vs (holding + marketFilledBuy money ms vb) := by
    unfold marketFilledSell
    rcases le_or_lt vs (holding + marketFilledBuy money ms vb) with h | h
    · rw [if_neg (by omega), min_eq_left h]
    · rw [if_pos h, min_eq_right h.le]
  refine ⟨h1, ?_⟩
  show holding + marketFilledBuy money ms vb -
      marketFilledSell (holding + marketFilledBuy money ms vb) vs = _
  rw [h1]

/-- Witness for `market_sell_settles_after_buy` at bid 2, ask 1, requested
buy 50, requested sell 30, cash 100 and holding 0: the sell leg can sell the
50 shares the buy leg just acquired. -/
theorem market_sell_settles_after_buy_witness :
    marketFilledSell (0 + marketFilledBuy 100 1 50) 30 =
      min 30 (0 + marketFilledBuy 100 1 50) ∧
    (executeOrders 2 1 50 30 100 0).2.1 =
      0 + marketFilledBuy 100 1 50 - min 30 (0 + marketFilledBuy 100 1 50) :=
  market_sell_settles_after_buy 2 1 50 30 100 0 (by norm_num) (by norm_num)
    (by norm_num) (by norm_num) (by norm_num) (by norm_num)

end MMGame
